import Mathlib

/-!
Shallow embedding of the copy-trading backtest simulator
(`src/research/backtest_strategy.py`, class `BacktestEngine`).

Numbers: Python floats are modelled as rationals (`ℚ`); the configuration
field `max_position_usd` is modelled as `WithTop ℚ` because a float
configuration value may be `+inf`.  Python dicts are modelled as
insertion-ordered association lists, matching dict iteration order.
Randomness (`np.random.random()`) is modelled as an injected sample
sequence `rng : ℕ → ℚ` together with an index counting how many samples
have been drawn; drawing a sample reads `rng i` and advances the index.
-/

namespace Backtest

/-- Constructor parameters of `BacktestEngine.__init__` (the engine's
configuration attributes; the source performs no validation on them). -/
structure Config where
  scale_ratio : ℚ
  min_shares : ℚ
  max_position_usd : WithTop ℚ
  copy_probability : ℚ
  deriving DecidableEq

/-- A row of the trades table as consumed by `run_backtest`
(fields `timestamp_ms, token_id, side, whale_shares, whale_price, whale_usd`). -/
structure TradeEvent where
  timestamp_ms : ℤ
  token_id : String
  side : String
  whale_shares : ℚ
  whale_price : ℚ
  whale_usd : ℚ
  deriving DecidableEq

/-- Python `d.get(k, v0)` on an insertion-ordered association list. -/
def dictGetD {β : Type} : List (String × β) → String → β → β
  | [], _, v0 => v0
  | p :: rest, k, v0 => if p.1 = k then p.2 else dictGetD rest k v0

/-- Python `d[k] = v`: update the existing key in place, else append it
(the insertion order of a Python dict). -/
def dictSet {β : Type} : List (String × β) → String → β → List (String × β)
  | [], k, v => [(k, v)]
  | p :: rest, k, v => if p.1 = k then (k, v) :: rest else p :: dictSet rest k v

/-- The mutable state attributes of `BacktestEngine` set up in `__init__`. -/
structure EngineState where
  positions : List (String × ℚ)
  trades_executed : ℕ
  trades_skipped : ℕ
  total_volume_usd : ℚ
  entry_prices : List (String × List (ℚ × ℚ))
  deriving DecidableEq

/-- The fresh state a newly constructed engine starts from. -/
def initState : EngineState := ⟨[], 0, 0, 0, []⟩

/-- The distinct outcome strings of `should_copy` and of the execution log:
`COPY` is logged as the string "EXECUTED"; the three skip constructors stand
for the three formatted "SKIP: ..." reason strings. -/
inductive Reason
  | COPY
  | SKIP_MIN_SHARES
  | SKIP_MAX_POSITION
  | SKIP_PROBABILITY
  deriving DecidableEq

/-- `BacktestEngine.should_copy(whale_shares, whale_usd)`.  Returns the
decision, the reason, and the randomness index after the call (the index
advances exactly when `np.random.random()` is drawn). -/
def should_copy (cfg : Config) (rng : ℕ → ℚ) (ri : ℕ)
    (whale_shares whale_usd : ℚ) : Bool × Reason × ℕ :=
  let our_shares := whale_shares * cfg.scale_ratio
  if our_shares < cfg.min_shares then
    (false, Reason.SKIP_MIN_SHARES, ri)
  else if ((whale_usd * cfg.scale_ratio : ℚ) : WithTop ℚ) > cfg.max_position_usd then
    (false, Reason.SKIP_MAX_POSITION, ri)
  else if rng ri > cfg.copy_probability then
    (false, Reason.SKIP_PROBABILITY, ri + 1)
  else
    (true, Reason.COPY, ri + 1)

/-- `BacktestEngine.execute_trade(token_id, side, shares, price, usd)`:
BUY adds the scaled shares and appends an entry lot; every other side
string takes the `else` branch and subtracts the scaled shares. -/
def execute_trade (cfg : Config) (st : EngineState)
    (token_id side : String) (shares price usd : ℚ) : EngineState :=
  let scaled_shares := shares * cfg.scale_ratio
  let scaled_usd := usd * cfg.scale_ratio
  let st1 :=
    if side = "BUY" then
      { st with
        positions := dictSet st.positions token_id
          (dictGetD st.positions token_id 0 + scaled_shares)
        entry_prices := dictSet st.entry_prices token_id
          (dictGetD st.entry_prices token_id [] ++ [(scaled_shares, price)]) }
    else
      { st with
        positions := dictSet st.positions token_id
          (dictGetD st.positions token_id 0 - scaled_shares) }
  { st1 with
    trades_executed := st1.trades_executed + 1
    total_volume_usd := st1.total_volume_usd + scaled_usd }

/-- `token_id[:20] + "..."`: the truncated instrument id stored in each
execution-log entry. -/
def truncTok (s : String) : String := String.mk (s.data.take 20) ++ "..."

/-- One execution-log dict appended by `run_backtest` for each event. -/
structure LogEntry where
  timestamp_ms : ℤ
  token_id : String
  side : String
  whale_shares : ℚ
  our_shares : ℚ
  price : ℚ
  action : Reason
  deriving DecidableEq

/-- The loop state of `run_backtest`: the engine, the randomness index,
and the execution log built so far. -/
structure RunState where
  engine : EngineState
  ri : ℕ
  log : List LogEntry
  deriving DecidableEq

/-- The loop state at the start of a run on a fresh engine. -/
def initRun : RunState := ⟨initState, 0, []⟩

/-- One iteration of the `run_backtest` loop body on one event. -/
def processEvent (cfg : Config) (rng : ℕ → ℚ) (s : RunState) (ev : TradeEvent) :
    RunState :=
  let sc := should_copy cfg rng s.ri ev.whale_shares ev.whale_usd
  if sc.1 then
    { engine := execute_trade cfg s.engine ev.token_id ev.side
        ev.whale_shares ev.whale_price ev.whale_usd
      ri := sc.2.2
      log := s.log ++ [⟨ev.timestamp_ms, truncTok ev.token_id, ev.side,
        ev.whale_shares, ev.whale_shares * cfg.scale_ratio, ev.whale_price,
        Reason.COPY⟩] }
  else
    { engine := { s.engine with trades_skipped := s.engine.trades_skipped + 1 }
      ri := sc.2.2
      log := s.log ++ [⟨ev.timestamp_ms, truncTok ev.token_id, ev.side,
        ev.whale_shares, 0, ev.whale_price, sc.2.1⟩] }

/-- The `run_backtest` loop over a list of events. -/
def processFeed (cfg : Config) (rng : ℕ → ℚ) (s : RunState)
    (events : List TradeEvent) : RunState :=
  events.foldl (processEvent cfg rng) s

/-- `trades_df.sort_values("timestamp_ms")`: an ascending sort by
timestamp.  Pandas' default quicksort is not stable, so the source only
guarantees that the output is some permutation of the rows sorted by
timestamp; it is modelled here by insertion sort, and statements about
the resulting event order are made only for feeds with strictly
ascending timestamps, where every sorted permutation coincides
(`sorted_perm_of_strict_eq`). -/
def sortFeed (events : List TradeEvent) : List TradeEvent :=
  events.insertionSort (fun a b => a.timestamp_ms ≤ b.timestamp_ms)

/-- Python `round(x, 2)` (modelled with round-half-up; Python rounds
half to even, which differs only at exact midpoints and is not relied on
by any statement below). -/
def round2 (x : ℚ) : ℚ := (round (x * 100) : ℤ) / 100

/-- Python `round(x, 4)`, same modelling note as `round2`. -/
def round4 (x : ℚ) : ℚ := (round (x * 10000) : ℤ) / 10000

/-- The result dict returned by `run_backtest`. -/
structure BacktestResult where
  total_whale_trades : ℕ
  trades_executed : ℕ
  trades_skipped : ℕ
  execution_rate : ℚ
  total_volume_usd : ℚ
  open_positions : ℕ
  positions : List (String × ℚ)
  execution_log : List LogEntry
  strategy_params : Config
  deriving DecidableEq

/-- The final result dict built from the loop state (`n` is the number of
rows of the dataframe).  `execution_log[-20:]` is the hard-coded tail. -/
def mkResult (cfg : Config) (n : ℕ) (s : RunState) : BacktestResult :=
  let openPos := s.engine.positions.filter (fun p => decide ((1 : ℚ)/10000 < |p.2|))
  { total_whale_trades := n
    trades_executed := s.engine.trades_executed
    trades_skipped := s.engine.trades_skipped
    execution_rate :=
      if 0 < n then (s.engine.trades_executed : ℚ) / (n : ℚ) * 100 else 0
    total_volume_usd := round2 s.engine.total_volume_usd
    open_positions := openPos.length
    positions := openPos.map (fun p => (p.1, round4 p.2))
    execution_log := s.log.drop (s.log.length - 20)
    strategy_params := cfg }

/-- `BacktestEngine.run_backtest(trades_df)` on a fresh engine: sort the
feed, loop, and build the result dict. -/
def run_backtest (cfg : Config) (rng : ℕ → ℚ) (events : List TradeEvent) :
    BacktestResult :=
  let sorted := sortFeed events
  mkResult cfg sorted.length (processFeed cfg rng initRun sorted)

/-- A raw dataframe row in which a required numeric field may be missing
or non-numeric (`none`); `run_backtest` reads all of them unguarded. -/
structure RawEvent where
  timestamp_ms : ℤ
  token_id : String
  side : String
  whale_shares : Option ℚ
  whale_price : Option ℚ
  whale_usd : Option ℚ
  deriving DecidableEq

/-- Field extraction at the top of the loop body: all three numeric fields
are read before any check runs; a missing or non-numeric one raises. -/
def toEvent (r : RawEvent) : Option TradeEvent :=
  match r.whale_shares, r.whale_price, r.whale_usd with
  | some s, some p, some u =>
    some ⟨r.timestamp_ms, r.token_id, r.side, s, p, u⟩
  | _, _, _ => none

/-- The `run_backtest` loop over raw rows: a row whose required field is
missing or non-numeric raises (KeyError / TypeError), aborting the run. -/
def processRaw (cfg : Config) (rng : ℕ → ℚ) :
    RunState → List RawEvent → Except String RunState
  | s, [] => Except.ok s
  | s, r :: rest =>
    match toEvent r with
    | none => Except.error "KeyError"
    | some ev => processRaw cfg rng (processEvent cfg rng s ev) rest

/-- Ascending sort of raw rows by timestamp (the same unstable
`sort_values` call, modelled by insertion sort; nothing below depends on
which sorted permutation of the raw rows it returns). -/
def sortRaw (rows : List RawEvent) : List RawEvent :=
  rows.insertionSort (fun a b => a.timestamp_ms ≤ b.timestamp_ms)

/-- `run_backtest` on raw rows: the per-row field reads can raise, and
nothing in the source catches the exception. -/
def run_backtest_raw (cfg : Config) (rng : ℕ → ℚ) (rows : List RawEvent) :
    Except String BacktestResult :=
  let sorted := sortRaw rows
  (processRaw cfg rng initRun sorted).map (mkResult cfg sorted.length)

/-- Whether a raw run escaped with an exception. -/
def runFailed (x : Except String BacktestResult) : Bool :=
  match x with
  | Except.error _ => true
  | Except.ok _ => false

/-- The decision-independent fields of a log entry (timestamp, truncated
instrument id, side, requested shares, price). -/
def logShape (e : LogEntry) : ℤ × String × String × ℚ × ℚ :=
  (e.timestamp_ms, e.token_id, e.side, e.whale_shares, e.price)

/-- The log-entry fields determined by the event alone. -/
def evShape (ev : TradeEvent) : ℤ × String × String × ℚ × ℚ :=
  (ev.timestamp_ms, truncTok ev.token_id, ev.side, ev.whale_shares,
    ev.whale_price)

/-- The copied shares of a log entry, signed: BUY positive, SELL negative. -/
def signedShares (e : LogEntry) : ℚ :=
  if e.side = "BUY" then e.our_shares else -e.our_shares

/-- Signed sum of copied shares over the accepted (EXECUTED) log entries
whose recorded (truncated) instrument id is `tok`. -/
def acceptedSumFor (log : List LogEntry) (tok : String) : ℚ :=
  ((log.filter (fun e => decide (e.action = Reason.COPY ∧ e.token_id = tok))).map
    signedShares).sum

/-- A sample sequence that always returns 0 (a legal value of
`np.random.random()`, which draws from [0,1)). -/
def rngZero : ℕ → ℚ := fun _ => 0

/-- A sample sequence that always returns 1/2. -/
def rngHalf : ℕ → ℚ := fun _ => 1/2

/-- The source's default configuration: scale 1, min 10 shares,
max 1000 USD, copy probability 1. -/
def cfg0 : Config := ⟨1, 10, ((1000 : ℚ) : WithTop ℚ), 1⟩

/-- The default configuration with `copy_probability = 0`. -/
def cfgP0 : Config := ⟨1, 10, ((1000 : ℚ) : WithTop ℚ), 0⟩

/-- The full-copy configuration of the spec: probability 1, no minimum,
no maximum (`+inf`), scale 1. -/
def cfgFull : Config := ⟨1, 0, ⊤, 1⟩

/-- An invalid configuration: negative scale ratio and a copy
probability above 1. -/
def cfgNeg : Config := ⟨-1, 10, ((1000 : ℚ) : WithTop ℚ), 2⟩

/-- A configuration differing from `cfg0` in every field. -/
def cfgAlt : Config := ⟨2, 0, ⊤, 1/2⟩

/-- A well-formed BUY event that `cfg0` accepts. -/
def ev0 : TradeEvent := ⟨0, "TOKEN_A", "BUY", 100, 1/2, 50⟩

/-- A well-formed SELL event with a later timestamp. -/
def ev1 : TradeEvent := ⟨1, "TOKEN_B", "SELL", 200, 1/4, 50⟩

/-- A BUY event with negative observed shares. -/
def evNeg : TradeEvent := ⟨0, "TOKEN_C", "BUY", -1, 1/2, 0⟩

/-- A 21-character instrument id. -/
def tokA : String := "AAAAAAAAAAAAAAAAAAAAX"

/-- A distinct 21-character instrument id sharing the first 20 characters
with `tokA`. -/
def tokB : String := "AAAAAAAAAAAAAAAAAAAAY"

/-- A BUY event on `tokA`. -/
def evA : TradeEvent := ⟨0, tokA, "BUY", 100, 1/2, 50⟩

/-- A BUY event on `tokB`. -/
def evB : TradeEvent := ⟨1, tokB, "BUY", 100, 1/2, 50⟩

/-- A raw row whose `whale_shares` field is missing/non-numeric. -/
def badRow : RawEvent := ⟨0, "TOKEN_A", "BUY", none, some (1/2), some 50⟩

/-- A raw row with all required fields present. -/
def rawOk : RawEvent := ⟨1, "TOKEN_B", "SELL", some 200, some (1/4), some 50⟩

/-- A feed of 25 identical BUY events. -/
def feed25 : List TradeEvent := List.replicate 25 ev0

/-! ### Association-list (dict) lemmas -/

theorem dictGetD_dictSet_self {β : Type} (d : List (String × β)) (k : String)
    (v : β) (v0 : β) : dictGetD (dictSet d k v) k v0 = v := by
  induction d with
  | nil => simp [dictSet, dictGetD]
  | cons p rest ih =>
    by_cases h : p.1 = k
    · simp [dictSet, dictGetD, h]
    · simp [dictSet, dictGetD, h, ih]

theorem dictGetD_dictSet_ne {β : Type} (d : List (String × β)) (k k' : String)
    (v : β) (v0 : β) (hne : k ≠ k') :
    dictGetD (dictSet d k v) k' v0 = dictGetD d k' v0 := by
  induction d with
  | nil => simp [dictSet, dictGetD, hne]
  | cons p rest ih =>
    by_cases h : p.1 = k
    · simp [dictSet, dictGetD, h, hne]
    · simp [dictSet, dictGetD, h, ih]

/-! ### Evaluation lemmas for `should_copy`, `execute_trade`, `processEvent` -/

theorem should_copy_min (cfg : Config) (rng : ℕ → ℚ) (ri : ℕ)
    (ws wu : ℚ) (h1 : ws * cfg.scale_ratio < cfg.min_shares) :
    should_copy cfg rng ri ws wu = (false, Reason.SKIP_MIN_SHARES, ri) := by
  simp only [should_copy]
  rw [if_pos h1]

theorem should_copy_max (cfg : Config) (rng : ℕ → ℚ) (ri : ℕ)
    (ws wu : ℚ) (h1 : ¬ ws * cfg.scale_ratio < cfg.min_shares)
    (h2 : ((wu * cfg.scale_ratio : ℚ) : WithTop ℚ) > cfg.max_position_usd) :
    should_copy cfg rng ri ws wu = (false, Reason.SKIP_MAX_POSITION, ri) := by
  simp only [should_copy]
  rw [if_neg h1, if_pos h2]

theorem should_copy_prob (cfg : Config) (rng : ℕ → ℚ) (ri : ℕ)
    (ws wu : ℚ) (h1 : ¬ ws * cfg.scale_ratio < cfg.min_shares)
    (h2 : ¬ ((wu * cfg.scale_ratio : ℚ) : WithTop ℚ) > cfg.max_position_usd)
    (h3 : rng ri > cfg.copy_probability) :
    should_copy cfg rng ri ws wu = (false, Reason.SKIP_PROBABILITY, ri + 1) := by
  simp only [should_copy]
  rw [if_neg h1, if_neg h2, if_pos h3]

theorem should_copy_accept (cfg : Config) (rng : ℕ → ℚ) (ri : ℕ)
    (ws wu : ℚ) (h1 : ¬ ws * cfg.scale_ratio < cfg.min_shares)
    (h2 : ¬ ((wu * cfg.scale_ratio : ℚ) : WithTop ℚ) > cfg.max_position_usd)
    (h3 : ¬ rng ri > cfg.copy_probability) :
    should_copy cfg rng ri ws wu = (true, Reason.COPY, ri + 1) := by
  simp only [should_copy]
  rw [if_neg h1, if_neg h2, if_neg h3]

theorem should_copy_reason_of_false (cfg : Config) (rng : ℕ → ℚ) (ri : ℕ)
    (ws wu : ℚ) (r : Reason) (n : ℕ)
    (h : should_copy cfg rng ri ws wu = (false, r, n)) : r ≠ Reason.COPY := by
  simp only [should_copy] at h
  split at h
  · simp only [Prod.mk.injEq] at h
    rcases h with ⟨-, rfl, -⟩
    simp
  · split at h
    · simp only [Prod.mk.injEq] at h
      rcases h with ⟨-, rfl, -⟩
      simp
    · split at h
      · simp only [Prod.mk.injEq] at h
        rcases h with ⟨-, rfl, -⟩
        simp
      · simp at h

theorem execute_trade_buy (cfg : Config) (st : EngineState)
    (token_id side : String) (shares price usd : ℚ) (h : side = "BUY") :
    execute_trade cfg st token_id side shares price usd =
      { positions := dictSet st.positions token_id
          (dictGetD st.positions token_id 0 + shares * cfg.scale_ratio)
        trades_executed := st.trades_executed + 1
        trades_skipped := st.trades_skipped
        total_volume_usd := st.total_volume_usd + usd * cfg.scale_ratio
        entry_prices := dictSet st.entry_prices token_id
          (dictGetD st.entry_prices token_id []
            ++ [(shares * cfg.scale_ratio, price)]) } := by
  simp only [execute_trade]
  rw [if_pos h]

theorem execute_trade_nonbuy (cfg : Config) (st : EngineState)
    (token_id side : String) (shares price usd : ℚ) (h : side ≠ "BUY") :
    execute_trade cfg st token_id side shares price usd =
      { positions := dictSet st.positions token_id
          (dictGetD st.positions token_id 0 - shares * cfg.scale_ratio)
        trades_executed := st.trades_executed + 1
        trades_skipped := st.trades_skipped
        total_volume_usd := st.total_volume_usd + usd * cfg.scale_ratio
        entry_prices := st.entry_prices } := by
  simp only [execute_trade]
  rw [if_neg h]

theorem processEvent_accept (cfg : Config) (rng : ℕ → ℚ) (s : RunState)
    (ev : TradeEvent) (n : ℕ)
    (h : should_copy cfg rng s.ri ev.whale_shares ev.whale_usd =
      (true, Reason.COPY, n)) :
    processEvent cfg rng s ev =
      ⟨execute_trade cfg s.engine ev.token_id ev.side ev.whale_shares
          ev.whale_price ev.whale_usd, n,
        s.log ++ [⟨ev.timestamp_ms, truncTok ev.token_id, ev.side,
          ev.whale_shares, ev.whale_shares * cfg.scale_ratio, ev.whale_price,
          Reason.COPY⟩]⟩ := by
  simp [processEvent, h]

theorem processEvent_skip (cfg : Config) (rng : ℕ → ℚ) (s : RunState)
    (ev : TradeEvent) (r : Reason) (n : ℕ)
    (h : should_copy cfg rng s.ri ev.whale_shares ev.whale_usd = (false, r, n)) :
    processEvent cfg rng s ev =
      ⟨{ s.engine with trades_skipped := s.engine.trades_skipped + 1 }, n,
        s.log ++ [⟨ev.timestamp_ms, truncTok ev.token_id, ev.side,
          ev.whale_shares, 0, ev.whale_price, r⟩]⟩ := by
  simp [processEvent, h]

theorem should_copy_reason_of_true (cfg : Config) (rng : ℕ → ℚ) (ri : ℕ)
    (ws wu : ℚ) (r : Reason) (n : ℕ)
    (h : should_copy cfg rng ri ws wu = (true, r, n)) :
    r = Reason.COPY ∧ n = ri + 1 := by
  simp only [should_copy] at h
  split at h
  · simp at h
  · split at h
    · simp at h
    · split at h
      · simp at h
      · simp only [Prod.mk.injEq] at h
        rcases h with ⟨-, rfl, rfl⟩
        exact ⟨rfl, rfl⟩

theorem execute_trade_executed (cfg : Config) (st : EngineState)
    (token_id side : String) (shares price usd : ℚ) :
    (execute_trade cfg st token_id side shares price usd).trades_executed
      = st.trades_executed + 1 := by
  by_cases h : side = "BUY"
  · rw [execute_trade_buy cfg st token_id side shares price usd h]
  · rw [execute_trade_nonbuy cfg st token_id side shares price usd h]

theorem execute_trade_skipped (cfg : Config) (st : EngineState)
    (token_id side : String) (shares price usd : ℚ) :
    (execute_trade cfg st token_id side shares price usd).trades_skipped
      = st.trades_skipped := by
  by_cases h : side = "BUY"
  · rw [execute_trade_buy cfg st token_id side shares price usd h]
  · rw [execute_trade_nonbuy cfg st token_id side shares price usd h]

/-! ### Loop-level lemmas -/

theorem processFeed_nil (cfg : Config) (rng : ℕ → ℚ) (s : RunState) :
    processFeed cfg rng s [] = s := rfl

theorem processFeed_cons (cfg : Config) (rng : ℕ → ℚ) (s : RunState)
    (ev : TradeEvent) (l : List TradeEvent) :
    processFeed cfg rng s (ev :: l)
      = processFeed cfg rng (processEvent cfg rng s ev) l := rfl

theorem processEvent_count (cfg : Config) (rng : ℕ → ℚ) (s : RunState)
    (ev : TradeEvent) :
    (processEvent cfg rng s ev).engine.trades_executed
        + (processEvent cfg rng s ev).engine.trades_skipped
      = s.engine.trades_executed + s.engine.trades_skipped + 1 := by
  rcases h : should_copy cfg rng s.ri ev.whale_shares ev.whale_usd with ⟨b, r, n⟩
  cases b
  · rw [processEvent_skip cfg rng s ev r n h]
    show s.engine.trades_executed + (s.engine.trades_skipped + 1)
        = s.engine.trades_executed + s.engine.trades_skipped + 1
    omega
  · obtain ⟨rfl, rfl⟩ := should_copy_reason_of_true cfg rng s.ri
      ev.whale_shares ev.whale_usd r n h
    rw [processEvent_accept cfg rng s ev (s.ri + 1) h]
    show (execute_trade cfg s.engine ev.token_id ev.side ev.whale_shares
          ev.whale_price ev.whale_usd).trades_executed
        + (execute_trade cfg s.engine ev.token_id ev.side ev.whale_shares
          ev.whale_price ev.whale_usd).trades_skipped
      = s.engine.trades_executed + s.engine.trades_skipped + 1
    rw [execute_trade_executed, execute_trade_skipped]
    omega

theorem processFeed_count (cfg : Config) (rng : ℕ → ℚ) (l : List TradeEvent)
    (s : RunState) :
    (processFeed cfg rng s l).engine.trades_executed
        + (processFeed cfg rng s l).engine.trades_skipped
      = s.engine.trades_executed + s.engine.trades_skipped + l.length := by
  induction l generalizing s with
  | nil => simp [processFeed_nil]
  | cons ev t ih =>
    rw [processFeed_cons, ih, processEvent_count]
    simp only [List.length_cons]
    omega

theorem processEvent_log_shape (cfg : Config) (rng : ℕ → ℚ) (s : RunState)
    (ev : TradeEvent) :
    (processEvent cfg rng s ev).log.map logShape
      = s.log.map logShape ++ [evShape ev] := by
  rcases h : should_copy cfg rng s.ri ev.whale_shares ev.whale_usd with ⟨b, r, n⟩
  cases b
  · rw [processEvent_skip cfg rng s ev r n h]
    simp [logShape, evShape]
  · obtain ⟨rfl, rfl⟩ := should_copy_reason_of_true cfg rng s.ri
      ev.whale_shares ev.whale_usd r n h
    rw [processEvent_accept cfg rng s ev (s.ri + 1) h]
    simp [logShape, evShape]

theorem processFeed_log_shape (cfg : Config) (rng : ℕ → ℚ)
    (l : List TradeEvent) (s : RunState) :
    (processFeed cfg rng s l).log.map logShape
      = s.log.map logShape ++ l.map evShape := by
  induction l generalizing s with
  | nil => simp [processFeed_nil]
  | cons ev t ih =>
    rw [processFeed_cons, ih, processEvent_log_shape]
    simp

theorem processFeed_log_length (cfg : Config) (rng : ℕ → ℚ)
    (l : List TradeEvent) (s : RunState) :
    (processFeed cfg rng s l).log.length = s.log.length + l.length := by
  have h := congrArg List.length (processFeed_log_shape cfg rng l s)
  simpa using h

/-! ### Ledger invariant: positions vs. accepted log entries -/

theorem acceptedSumFor_append (log : List LogEntry) (e : LogEntry)
    (tok : String) :
    acceptedSumFor (log ++ [e]) tok = acceptedSumFor log tok
      + (if e.action = Reason.COPY ∧ e.token_id = tok then signedShares e
          else 0) := by
  by_cases hc : e.action = Reason.COPY ∧ e.token_id = tok
  · simp [acceptedSumFor, List.filter_append, hc]
  · simp [acceptedSumFor, List.filter_append, hc]

theorem processEvent_accept_engine (cfg : Config) (rng : ℕ → ℚ) (s : RunState)
    (ev : TradeEvent) (n : ℕ)
    (h : should_copy cfg rng s.ri ev.whale_shares ev.whale_usd =
      (true, Reason.COPY, n)) :
    (processEvent cfg rng s ev).engine
      = execute_trade cfg s.engine ev.token_id ev.side ev.whale_shares
          ev.whale_price ev.whale_usd := by
  rw [processEvent_accept cfg rng s ev n h]

theorem processEvent_accept_log (cfg : Config) (rng : ℕ → ℚ) (s : RunState)
    (ev : TradeEvent) (n : ℕ)
    (h : should_copy cfg rng s.ri ev.whale_shares ev.whale_usd =
      (true, Reason.COPY, n)) :
    (processEvent cfg rng s ev).log
      = s.log ++ [⟨ev.timestamp_ms, truncTok ev.token_id, ev.side,
          ev.whale_shares, ev.whale_shares * cfg.scale_ratio, ev.whale_price,
          Reason.COPY⟩] := by
  rw [processEvent_accept cfg rng s ev n h]

theorem processEvent_skip_positions (cfg : Config) (rng : ℕ → ℚ) (s : RunState)
    (ev : TradeEvent) (r : Reason) (n : ℕ)
    (h : should_copy cfg rng s.ri ev.whale_shares ev.whale_usd = (false, r, n)) :
    (processEvent cfg rng s ev).engine.positions = s.engine.positions := by
  rw [processEvent_skip cfg rng s ev r n h]

theorem processEvent_skip_log (cfg : Config) (rng : ℕ → ℚ) (s : RunState)
    (ev : TradeEvent) (r : Reason) (n : ℕ)
    (h : should_copy cfg rng s.ri ev.whale_shares ev.whale_usd = (false, r, n)) :
    (processEvent cfg rng s ev).log
      = s.log ++ [⟨ev.timestamp_ms, truncTok ev.token_id, ev.side,
          ev.whale_shares, 0, ev.whale_price, r⟩] := by
  rw [processEvent_skip cfg rng s ev r n h]

theorem processEvent_ledger (cfg : Config) (rng : ℕ → ℚ) (s : RunState)
    (ev : TradeEvent) (tok : String)
    (hcoll : truncTok ev.token_id = truncTok tok → ev.token_id = tok)
    (ih : dictGetD s.engine.positions tok 0
      = acceptedSumFor s.log (truncTok tok)) :
    dictGetD (processEvent cfg rng s ev).engine.positions tok 0
      = acceptedSumFor (processEvent cfg rng s ev).log (truncTok tok) := by
  rcases h : should_copy cfg rng s.ri ev.whale_shares ev.whale_usd with ⟨b, r, n⟩
  cases b
  · rw [processEvent_skip_positions cfg rng s ev r n h,
      processEvent_skip_log cfg rng s ev r n h, acceptedSumFor_append, ih]
    simp [signedShares]
  · obtain ⟨rfl, rfl⟩ := should_copy_reason_of_true cfg rng s.ri
      ev.whale_shares ev.whale_usd r n h
    rw [processEvent_accept_engine cfg rng s ev (s.ri + 1) h,
      processEvent_accept_log cfg rng s ev (s.ri + 1) h, acceptedSumFor_append]
    by_cases hb : ev.side = "BUY"
    · rw [execute_trade_buy cfg s.engine ev.token_id ev.side ev.whale_shares
        ev.whale_price ev.whale_usd hb]
      show dictGetD (dictSet s.engine.positions ev.token_id
          (dictGetD s.engine.positions ev.token_id 0
            + ev.whale_shares * cfg.scale_ratio)) tok 0 = _
      by_cases ht : truncTok ev.token_id = truncTok tok
      · obtain rfl : ev.token_id = tok := hcoll ht
        rw [dictGetD_dictSet_self, ih]
        simp [signedShares, hb]
      · have hne : ev.token_id ≠ tok := fun hh => ht (by rw [hh])
        rw [dictGetD_dictSet_ne _ _ _ _ _ hne, ih]
        simp [signedShares, ht]
    · rw [execute_trade_nonbuy cfg s.engine ev.token_id ev.side ev.whale_shares
        ev.whale_price ev.whale_usd hb]
      show dictGetD (dictSet s.engine.positions ev.token_id
          (dictGetD s.engine.positions ev.token_id 0
            - ev.whale_shares * cfg.scale_ratio)) tok 0 = _
      by_cases ht : truncTok ev.token_id = truncTok tok
      · obtain rfl : ev.token_id = tok := hcoll ht
        rw [dictGetD_dictSet_self, ih]
        simp [signedShares, hb, sub_eq_add_neg]
      · have hne : ev.token_id ≠ tok := fun hh => ht (by rw [hh])
        rw [dictGetD_dictSet_ne _ _ _ _ _ hne, ih]
        simp [signedShares, ht]

theorem processFeed_ledger (cfg : Config) (rng : ℕ → ℚ) (l : List TradeEvent)
    (s : RunState) (tok : String)
    (hcoll : ∀ e ∈ l, truncTok e.token_id = truncTok tok → e.token_id = tok)
    (ih : dictGetD s.engine.positions tok 0
      = acceptedSumFor s.log (truncTok tok)) :
    dictGetD (processFeed cfg rng s l).engine.positions tok 0
      = acceptedSumFor (processFeed cfg rng s l).log (truncTok tok) := by
  induction l generalizing s with
  | nil => simpa [processFeed_nil] using ih
  | cons ev t iht =>
    rw [processFeed_cons]
    exact iht _ (fun e he => hcoll e (List.mem_cons_of_mem ev he))
      (processEvent_ledger cfg rng s ev tok (hcoll ev (List.mem_cons_self ev t)) ih)

theorem processFeed_log_copied (cfg : Config) (rng : ℕ → ℚ)
    (l : List TradeEvent) (s : RunState)
    (ih : ∀ e ∈ s.log, e.action = Reason.COPY →
      e.our_shares = e.whale_shares * cfg.scale_ratio) :
    ∀ e ∈ (processFeed cfg rng s l).log, e.action = Reason.COPY →
      e.our_shares = e.whale_shares * cfg.scale_ratio := by
  induction l generalizing s with
  | nil => simpa [processFeed_nil] using ih
  | cons ev t iht =>
    rw [processFeed_cons]
    refine iht _ ?_
    rcases h : should_copy cfg rng s.ri ev.whale_shares ev.whale_usd with ⟨b, r, n⟩
    cases b
    · rw [processEvent_skip_log cfg rng s ev r n h]
      intro e he hc
      rcases List.mem_append.1 he with he1 | he2
      · exact ih e he1 hc
      · have hr := should_copy_reason_of_false cfg rng s.ri
          ev.whale_shares ev.whale_usd r n h
        simp only [List.mem_singleton] at he2
        subst he2
        simp only at hc
        exact absurd hc hr
    · obtain ⟨rfl, rfl⟩ := should_copy_reason_of_true cfg rng s.ri
        ev.whale_shares ev.whale_usd r n h
      rw [processEvent_accept_log cfg rng s ev (s.ri + 1) h]
      intro e he hc
      rcases List.mem_append.1 he with he1 | he2
      · exact ih e he1 hc
      · simp only [List.mem_singleton] at he2
        subst he2
        rfl

/-! ### Sorting and run-level projection lemmas -/

theorem sortFeed_length (events : List TradeEvent) :
    (sortFeed events).length = events.length :=
  (List.perm_insertionSort _ events).length_eq

theorem mem_sortFeed (events : List TradeEvent) (e : TradeEvent) :
    e ∈ sortFeed events ↔ e ∈ events :=
  List.mem_insertionSort _

theorem sortFeed_of_sorted (events : List TradeEvent)
    (h : events.Pairwise (fun a b => a.timestamp_ms ≤ b.timestamp_ms)) :
    sortFeed events = events :=
  List.Sorted.insertionSort_eq h

/-- On a feed with strictly ascending timestamps, every sort agrees: any
permutation of the feed that is sorted by timestamp is the feed itself.
This is all `sort_values` guarantees about its output, and it pins the
output uniquely here, so for such feeds no statement depends on which
sorted permutation (stable or not) the source's sort returns. -/
theorem sorted_perm_of_strict_eq (events sorted' : List TradeEvent)
    (hperm : sorted'.Perm events)
    (hsorted : sorted'.Pairwise (fun a b => a.timestamp_ms ≤ b.timestamp_ms))
    (hstrict : events.Pairwise (fun a b => a.timestamp_ms < b.timestamp_ms)) :
    sorted' = events := by
  have hne : sorted'.Pairwise (fun a b => a.timestamp_ms ≠ b.timestamp_ms) :=
    (hperm.pairwise_iff (fun h => h.symm)).2 (hstrict.imp (fun h => ne_of_lt h))
  have hstrict2 : sorted'.Pairwise
      (fun a b => a.timestamp_ms < b.timestamp_ms) :=
    (hsorted.and hne).imp (fun h => lt_of_le_of_ne h.1 h.2)
  haveI : IsAntisymm TradeEvent (fun a b => a.timestamp_ms < b.timestamp_ms) :=
    ⟨fun a b h1 h2 => absurd (lt_trans h1 h2) (lt_irrefl _)⟩
  exact List.eq_of_perm_of_sorted hperm hstrict2 hstrict

theorem run_backtest_executed (cfg : Config) (rng : ℕ → ℚ)
    (events : List TradeEvent) :
    (run_backtest cfg rng events).trades_executed
      = (processFeed cfg rng initRun (sortFeed events)).engine.trades_executed :=
  rfl

theorem run_backtest_skipped (cfg : Config) (rng : ℕ → ℚ)
    (events : List TradeEvent) :
    (run_backtest cfg rng events).trades_skipped
      = (processFeed cfg rng initRun (sortFeed events)).engine.trades_skipped :=
  rfl

theorem run_backtest_total (cfg : Config) (rng : ℕ → ℚ)
    (events : List TradeEvent) :
    (run_backtest cfg rng events).total_whale_trades = events.length := by
  show (sortFeed events).length = events.length
  exact sortFeed_length events

theorem run_backtest_log (cfg : Config) (rng : ℕ → ℚ)
    (events : List TradeEvent) :
    (run_backtest cfg rng events).execution_log
      = (processFeed cfg rng initRun (sortFeed events)).log.drop
          ((processFeed cfg rng initRun (sortFeed events)).log.length - 20) :=
  rfl

/-! ### Decision outcomes under special configurations -/

theorem should_copy_fst_p0 (cfg : Config) (rng : ℕ → ℚ) (ri : ℕ) (ws wu : ℚ)
    (hp : cfg.copy_probability = 0) (hr : 0 < rng ri) :
    (should_copy cfg rng ri ws wu).1 = false := by
  simp only [should_copy]
  split
  · rfl
  · split
    · rfl
    · rw [if_pos (show rng ri > cfg.copy_probability by rw [hp]; exact hr)]

theorem processEvent_skip_executed (cfg : Config) (rng : ℕ → ℚ) (s : RunState)
    (ev : TradeEvent) (r : Reason) (n : ℕ)
    (h : should_copy cfg rng s.ri ev.whale_shares ev.whale_usd = (false, r, n)) :
    (processEvent cfg rng s ev).engine.trades_executed
      = s.engine.trades_executed := by
  rw [processEvent_skip cfg rng s ev r n h]

theorem processFeed_executed_p0 (cfg : Config) (rng : ℕ → ℚ)
    (l : List TradeEvent) (s : RunState)
    (hp : cfg.copy_probability = 0) (hr : ∀ n, 0 < rng n) :
    (processFeed cfg rng s l).engine.trades_executed
      = s.engine.trades_executed := by
  induction l generalizing s with
  | nil => rw [processFeed_nil]
  | cons ev t iht =>
    rw [processFeed_cons, iht]
    rcases h : should_copy cfg rng s.ri ev.whale_shares ev.whale_usd with ⟨b, r, n⟩
    have hb : b = false := by
      have hf := should_copy_fst_p0 cfg rng s.ri ev.whale_shares ev.whale_usd hp
        (hr s.ri)
      rw [h] at hf
      exact hf
    subst hb
    exact processEvent_skip_executed cfg rng s ev r n h

theorem should_copy_cfgFull (rng : ℕ → ℚ) (ri : ℕ) (ws wu : ℚ)
    (hws : 0 ≤ ws) (hr : rng ri < 1) :
    should_copy cfgFull rng ri ws wu = (true, Reason.COPY, ri + 1) := by
  refine should_copy_accept cfgFull rng ri ws wu ?_ ?_ ?_
  · show ¬ ws * (1 : ℚ) < (0 : ℚ)
    rw [mul_one]
    exact not_lt.2 hws
  · exact not_top_lt
  · show ¬ rng ri > (1 : ℚ)
    exact not_lt.2 (le_of_lt hr)

theorem processFeed_cfgFull_counts (rng : ℕ → ℚ) (l : List TradeEvent)
    (s : RunState) (hws : ∀ e ∈ l, 0 ≤ e.whale_shares) (hr : ∀ n, rng n < 1) :
    (processFeed cfgFull rng s l).engine.trades_executed
        = s.engine.trades_executed + l.length
      ∧ (processFeed cfgFull rng s l).engine.trades_skipped
        = s.engine.trades_skipped := by
  induction l generalizing s with
  | nil => simp [processFeed_nil]
  | cons ev t iht =>
    rw [processFeed_cons]
    have hacc := should_copy_cfgFull rng s.ri ev.whale_shares ev.whale_usd
      (hws ev (List.mem_cons_self ev t)) (hr s.ri)
    have heng := processEvent_accept_engine cfgFull rng s ev (s.ri + 1) hacc
    obtain ⟨h1, h2⟩ := iht (processEvent cfgFull rng s ev)
      (fun e he => hws e (List.mem_cons_of_mem ev he))
    constructor
    · rw [h1, heng, execute_trade_executed]
      simp only [List.length_cons]
      omega
    · rw [h2, heng, execute_trade_skipped]

/-! ### Malformed rows abort the raw run -/

theorem processRaw_error (cfg : Config) (rng : ℕ → ℚ) (l : List RawEvent)
    (s : RunState) (h : ∃ r ∈ l, toEvent r = none) :
    processRaw cfg rng s l = Except.error "KeyError" := by
  induction l generalizing s with
  | nil => simp at h
  | cons r rest iht =>
    rcases htr : toEvent r with - | ev
    · simp [processRaw, htr]
    · rcases h with ⟨x, hx, hxe⟩
      rcases List.mem_cons.1 hx with rfl | hx2
      · rw [htr] at hxe
        exact absurd hxe (by simp)
      · simp only [processRaw, htr]
        exact iht _ ⟨x, hx2, hxe⟩

theorem mem_sortRaw (rows : List RawEvent) (r : RawEvent) :
    r ∈ sortRaw rows ↔ r ∈ rows :=
  List.mem_insertionSort _

/-! ### Claims -/

/-- C1: for every feed and every configuration, after processing any prefix
of the feed the counters satisfy
`trades_executed + trades_skipped = number of events processed so far`:
each event increments exactly one of the two counters, at every prefix
length. -/
theorem trades_counter_partition (cfg : Config) (rng : ℕ → ℚ)
    (events : List TradeEvent) (n : ℕ) :
    (processFeed cfg rng initRun (events.take n)).engine.trades_executed
        + (processFeed cfg rng initRun (events.take n)).engine.trades_skipped
      = (events.take n).length := by
  rw [processFeed_count]
  simp [initRun, initState]

/-- C3: the decision policy evaluates its rules in a fixed order and
short-circuits on the first failing rule: below-minimum scaled shares
reject with `MIN_SHARES` before the max-position check and without drawing
randomness (the sample index stays `ri`); otherwise an above-maximum scaled
USD value rejects with `MAX_POSITION`, still without a draw; only when both
size checks pass is one sample drawn (the index advances to `ri + 1`),
rejecting with `PROBABILITY` exactly when the sample exceeds
`copy_probability` and accepting otherwise. -/
theorem decision_rule_order (cfg : Config) (rng : ℕ → ℚ) (ri : ℕ)
    (ws wu : ℚ) :
    (ws * cfg.scale_ratio < cfg.min_shares →
      should_copy cfg rng ri ws wu = (false, Reason.SKIP_MIN_SHARES, ri))
    ∧ (¬ ws * cfg.scale_ratio < cfg.min_shares →
        ((wu * cfg.scale_ratio : ℚ) : WithTop ℚ) > cfg.max_position_usd →
        should_copy cfg rng ri ws wu = (false, Reason.SKIP_MAX_POSITION, ri))
    ∧ (¬ ws * cfg.scale_ratio < cfg.min_shares →
        ¬ ((wu * cfg.scale_ratio : ℚ) : WithTop ℚ) > cfg.max_position_usd →
        rng ri > cfg.copy_probability →
        should_copy cfg rng ri ws wu = (false, Reason.SKIP_PROBABILITY, ri + 1))
    ∧ (¬ ws * cfg.scale_ratio < cfg.min_shares →
        ¬ ((wu * cfg.scale_ratio : ℚ) : WithTop ℚ) > cfg.max_position_usd →
        ¬ rng ri > cfg.copy_probability →
        should_copy cfg rng ri ws wu = (true, Reason.COPY, ri + 1)) :=
  ⟨fun h1 => should_copy_min cfg rng ri ws wu h1,
    fun h1 h2 => should_copy_max cfg rng ri ws wu h1 h2,
    fun h1 h2 h3 => should_copy_prob cfg rng ri ws wu h1 h2 h3,
    fun h1 h2 h3 => should_copy_accept cfg rng ri ws wu h1 h2 h3⟩

/-- C3 witness: a 5-share event under the default configuration is
rejected with the minimum-shares reason and no sample is drawn. -/
theorem decision_rule_order_witness :
    should_copy cfg0 rngZero 0 5 50 = (false, Reason.SKIP_MIN_SHARES, 0) :=
  (decision_rule_order cfg0 rngZero 0 5 50).1 (by norm_num [cfg0])

/-- C5 counterexample: the claim says an invalid configuration
(`scale_ratio < 0`, `copy_probability` outside [0,1]) must fail validation
before any event is processed, and the run must not begin; the source
validates nothing, and the run on `cfgNeg` (scale −1, probability 2)
begins and processes its event. -/
theorem invalid_config_runs_cex :
    (run_backtest cfgNeg rngZero [ev0]).total_whale_trades = 1
    ∧ (run_backtest cfgNeg rngZero [ev0]).trades_executed
        + (run_backtest cfgNeg rngZero [ev0]).trades_skipped = 1 := by
  constructor
  · exact run_backtest_total cfgNeg rngZero [ev0]
  · rw [run_backtest_executed, run_backtest_skipped, processFeed_count]
    simp [initRun, initState, sortFeed_length]

/-- C5 amended: the constructor performs no validation; even for a
configuration with `scale_ratio < 0`, `copy_probability` outside [0,1],
or a negative threshold, the run begins and processes every event. -/
theorem invalid_config_still_runs (cfg : Config) (rng : ℕ → ℚ)
    (events : List TradeEvent)
    (_h : cfg.scale_ratio < 0 ∨ cfg.copy_probability < 0
      ∨ 1 < cfg.copy_probability ∨ cfg.min_shares < 0
      ∨ cfg.max_position_usd < 0) :
    (run_backtest cfg rng events).total_whale_trades = events.length
    ∧ (run_backtest cfg rng events).trades_executed
        + (run_backtest cfg rng events).trades_skipped = events.length := by
  refine ⟨run_backtest_total cfg rng events, ?_⟩
  rw [run_backtest_executed, run_backtest_skipped, processFeed_count]
  simp [initRun, initState, sortFeed_length]

/-- C5 witness: the run on the invalid configuration `cfgNeg` processes
its whole one-event feed. -/
theorem invalid_config_still_runs_witness :
    (run_backtest cfgNeg rngHalf [ev0, ev1]).total_whale_trades = 2
    ∧ (run_backtest cfgNeg rngHalf [ev0, ev1]).trades_executed
        + (run_backtest cfgNeg rngHalf [ev0, ev1]).trades_skipped = 2 :=
  invalid_config_still_runs cfgNeg rngHalf [ev0, ev1]
    (Or.inl (by norm_num [cfgNeg]))

/-- C9: the empty feed is valid: the run returns all-zero aggregates
(total events, executed, skipped, execution rate, volume, open positions)
and the division by the event count is guarded, yielding rate 0. -/
theorem empty_feed_all_zero (cfg : Config) (rng : ℕ → ℚ) :
    (run_backtest cfg rng []).total_whale_trades = 0
    ∧ (run_backtest cfg rng []).trades_executed = 0
    ∧ (run_backtest cfg rng []).trades_skipped = 0
    ∧ (run_backtest cfg rng []).execution_rate = 0
    ∧ (run_backtest cfg rng []).total_volume_usd = 0
    ∧ (run_backtest cfg rng []).open_positions = 0
    ∧ (run_backtest cfg rng []).positions = []
    ∧ (run_backtest cfg rng []).execution_log = [] := by
  refine ⟨rfl, rfl, rfl, rfl, ?_, rfl, rfl, rfl⟩
  show round2 0 = 0
  norm_num [round2]

/-- C10: in `execute_trade`, only the exact side string "BUY" adds the
scaled shares and appends an entry lot; every other side string (not only
"SELL") takes the else branch: the scaled shares are subtracted from the
instrument's net position and no entry lot is appended. -/
theorem nonbuy_side_sells (cfg : Config) (st : EngineState)
    (token_id side : String) (shares price usd : ℚ) :
    (side ≠ "BUY" →
      execute_trade cfg st token_id side shares price usd =
        { positions := dictSet st.positions token_id
            (dictGetD st.positions token_id 0 - shares * cfg.scale_ratio)
          trades_executed := st.trades_executed + 1
          trades_skipped := st.trades_skipped
          total_volume_usd := st.total_volume_usd + usd * cfg.scale_ratio
          entry_prices := st.entry_prices })
    ∧ (side = "BUY" →
      execute_trade cfg st token_id side shares price usd =
        { positions := dictSet st.positions token_id
            (dictGetD st.positions token_id 0 + shares * cfg.scale_ratio)
          trades_executed := st.trades_executed + 1
          trades_skipped := st.trades_skipped
          total_volume_usd := st.total_volume_usd + usd * cfg.scale_ratio
          entry_prices := dictSet st.entry_prices token_id
            (dictGetD st.entry_prices token_id []
              ++ [(shares * cfg.scale_ratio, price)]) }) :=
  ⟨fun h => execute_trade_nonbuy cfg st token_id side shares price usd h,
    fun h => execute_trade_buy cfg st token_id side shares price usd h⟩

/-- C10 witness: the unknown side string "HOLD" is applied as a SELL:
shares are subtracted and the entry-lot map is untouched. -/
theorem nonbuy_side_sells_witness :
    execute_trade cfg0 initState "TOKEN_A" "HOLD" 5 1 5 =
      { positions := dictSet initState.positions "TOKEN_A"
          (dictGetD initState.positions "TOKEN_A" 0 - 5 * cfg0.scale_ratio)
        trades_executed := initState.trades_executed + 1
        trades_skipped := initState.trades_skipped
        total_volume_usd := initState.total_volume_usd + 5 * cfg0.scale_ratio
        entry_prices := initState.entry_prices } :=
  (nonbuy_side_sells cfg0 initState "TOKEN_A" "HOLD" 5 1 5).1 (by decide)

/-- C2 counterexample: the claim relates the ledger to the log entries "for
that instrument", but log entries record only the first 20 characters of
the instrument id.  With two accepted BUYs on distinct 21-character ids
sharing a 20-character prefix, the ledger holds 100 shares of `tokA` while
the accepted log entries recorded under its (truncated) id sum to 200. -/
theorem ledger_log_truncation_cex :
    ¬ (dictGetD (processFeed cfg0 rngZero initRun [evA, evB]).engine.positions
        tokA 0
      = acceptedSumFor (processFeed cfg0 rngZero initRun [evA, evB]).log
          (truncTok tokA)) := by
  have hsc : ∀ ri : ℕ,
      should_copy cfg0 rngZero ri 100 50 = (true, Reason.COPY, ri + 1) := by
    intro ri
    refine should_copy_accept cfg0 rngZero ri 100 50 ?_ ?_ ?_
    · norm_num [cfg0]
    · show ¬ (((50 : ℚ) * 1 : ℚ) : WithTop ℚ) > ((1000 : ℚ) : WithTop ℚ)
      rw [gt_iff_lt, WithTop.coe_lt_coe]
      norm_num
    · norm_num [cfg0, rngZero]
  have hba : ¬ (tokB = tokA) := by decide
  have htr : truncTok tokB = truncTok tokA := by decide
  simp [processFeed, processEvent, initRun, initState, evA, evB, hsc]
  norm_num [execute_trade, dictGetD, dictSet, acceptedSumFor, signedShares,
    cfg0, hba, htr]

/-- C2 amended: for every instrument and every prefix of the run, the
ledger's net shares equal the signed sum (BUY positive, otherwise negative)
of the copied shares in the accepted (EXECUTED) log entries recorded under
the instrument's truncated id — provided no other instrument in the prefix
collides with it after the log's 20-character truncation — and every
accepted entry's copied shares equal `observed_shares * scale_ratio`. -/
theorem ledger_matches_accepted_log (cfg : Config) (rng : ℕ → ℚ)
    (events : List TradeEvent) (n : ℕ) (tok : String)
    (hcoll : ∀ e ∈ events.take n,
      truncTok e.token_id = truncTok tok → e.token_id = tok) :
    dictGetD (processFeed cfg rng initRun (events.take n)).engine.positions
        tok 0
      = acceptedSumFor (processFeed cfg rng initRun (events.take n)).log
          (truncTok tok)
    ∧ ∀ e ∈ (processFeed cfg rng initRun (events.take n)).log,
        e.action = Reason.COPY →
        e.our_shares = e.whale_shares * cfg.scale_ratio := by
  constructor
  · exact processFeed_ledger cfg rng (events.take n) initRun tok hcoll
      (by simp [initRun, initState, dictGetD, acceptedSumFor])
  · exact processFeed_log_copied cfg rng (events.take n) initRun
      (by simp [initRun])

/-- C2 witness: the one-event prefix on `ev0` satisfies the ledger/log
invariant (the single instrument trivially has no truncation collision). -/
theorem ledger_matches_accepted_log_witness :
    dictGetD (processFeed cfg0 rngZero initRun ([ev0].take 1)).engine.positions
        "TOKEN_A" 0
      = acceptedSumFor (processFeed cfg0 rngZero initRun ([ev0].take 1)).log
          (truncTok "TOKEN_A") :=
  (ledger_matches_accepted_log cfg0 rngZero [ev0] 1 "TOKEN_A" (by decide)).1

/-- C4 counterexample: the claim says a malformed event is rejected with a
`MALFORMED` reason and never surfaces as an exception; the source has no
such handling — a row with a missing/non-numeric `whale_shares` raises and
the exception escapes the run. -/
theorem malformed_aborts_cex :
    runFailed (run_backtest_raw cfg0 rngZero [badRow]) = true := rfl

/-- C4 amended: a raw row with a missing or non-numeric required numeric
field is not rejected per-event: the unguarded field access raises
(KeyError/TypeError) and the exception escapes the whole run; no log entry
and no `MALFORMED` reason exist. -/
theorem malformed_row_aborts (cfg : Config) (rng : ℕ → ℚ)
    (rows : List RawEvent) (h : ∃ r ∈ rows, toEvent r = none) :
    run_backtest_raw cfg rng rows = Except.error "KeyError" := by
  have h2 : ∃ r ∈ sortRaw rows, toEvent r = none := by
    rcases h with ⟨x, hx, he⟩
    exact ⟨x, (mem_sortRaw rows x).2 hx, he⟩
  show (processRaw cfg rng initRun (sortRaw rows)).map
      (mkResult cfg (sortRaw rows).length) = Except.error "KeyError"
  rw [processRaw_error cfg rng (sortRaw rows) initRun h2]
  rfl

/-- C4 witness: a two-row feed containing one malformed row makes the
whole raw run abort with the field-access exception. -/
theorem malformed_row_aborts_witness :
    run_backtest_raw cfg0 rngHalf [badRow, rawOk] = Except.error "KeyError" :=
  malformed_row_aborts cfg0 rngHalf [badRow, rawOk]
    ⟨badRow, by simp, rfl⟩

/-- C6 counterexample: the claim says `copy_probability = 0` executes zero
trades for every non-empty feed; the probability rule rejects only when
`sample > 0`, so the legal sample 0 (drawn from [0,1)) is accepted and the
trade is copied. -/
theorem p0_zero_sample_copies_cex :
    (run_backtest cfgP0 rngZero [ev0]).trades_executed = 1 := by
  rw [run_backtest_executed]
  have hsc : should_copy cfgP0 rngZero initRun.ri ev0.whale_shares
      ev0.whale_usd = (true, Reason.COPY, 1) := by
    refine should_copy_accept cfgP0 rngZero 0 ev0.whale_shares ev0.whale_usd
      ?_ ?_ ?_
    · norm_num [cfgP0, ev0]
    · show ¬ (((50 : ℚ) * 1 : ℚ) : WithTop ℚ) > ((1000 : ℚ) : WithTop ℚ)
      rw [gt_iff_lt, WithTop.coe_lt_coe]
      norm_num
    · norm_num [cfgP0, rngZero]
  show (processFeed cfgP0 rngZero initRun [ev0]).engine.trades_executed = 1
  rw [processFeed_cons, processFeed_nil,
    processEvent_accept_engine cfgP0 rngZero initRun ev0 1 hsc,
    execute_trade_executed]
  rfl

/-- C6 amended: with `copy_probability = 0`, a trade is executed only when
its drawn sample is exactly 0; for every sample sequence whose draws are
all strictly positive, the run executes zero trades and skips every
event. -/
theorem p0_skips_all (cfg : Config) (rng : ℕ → ℚ) (events : List TradeEvent)
    (hp : cfg.copy_probability = 0) (hr : ∀ n, 0 < rng n) :
    (run_backtest cfg rng events).trades_executed = 0
    ∧ (run_backtest cfg rng events).trades_skipped = events.length := by
  have he : (run_backtest cfg rng events).trades_executed = 0 := by
    rw [run_backtest_executed,
      processFeed_executed_p0 cfg rng (sortFeed events) initRun hp hr]
    rfl
  refine ⟨he, ?_⟩
  have hc : (run_backtest cfg rng events).trades_executed
      + (run_backtest cfg rng events).trades_skipped = events.length := by
    rw [run_backtest_executed, run_backtest_skipped, processFeed_count]
    simp [initRun, initState, sortFeed_length]
  omega

/-- C6 witness: under `copy_probability = 0` and strictly positive
samples, a one-event run executes nothing and skips the event. -/
theorem p0_skips_all_witness :
    (run_backtest cfgP0 rngHalf [ev0]).trades_executed = 0
    ∧ (run_backtest cfgP0 rngHalf [ev0]).trades_skipped = 1 :=
  p0_skips_all cfgP0 rngHalf [ev0] rfl (fun _ => by norm_num [rngHalf])

/-- C7 counterexample: the claim says the full-copy configuration
(probability 1, minimum 0, maximum +∞, scale 1) copies every event of
every feed; an event with negative observed shares scales to a negative
share count, fails the minimum-shares rule (< 0), and is skipped. -/
theorem negative_shares_cex :
    (run_backtest cfgFull rngZero [evNeg]).trades_executed ≠ 1 := by
  have hsc : should_copy cfgFull rngZero initRun.ri evNeg.whale_shares
      evNeg.whale_usd = (false, Reason.SKIP_MIN_SHARES, 0) := by
    refine should_copy_min cfgFull rngZero 0 evNeg.whale_shares
      evNeg.whale_usd ?_
    norm_num [cfgFull, evNeg]
  rw [run_backtest_executed]
  show (processFeed cfgFull rngZero initRun [evNeg]).engine.trades_executed ≠ 1
  rw [processFeed_cons, processFeed_nil,
    processEvent_skip_executed cfgFull rngZero initRun evNeg
      Reason.SKIP_MIN_SHARES 0 hsc]
  norm_num [initRun, initState]

/-- C7 amended: under the full-copy configuration, every event with
nonnegative observed shares is copied: when all events have nonnegative
observed shares and the sample sequence draws from [0,1) (samples < 1),
`trades_executed` equals the number of events and nothing is skipped. -/
theorem full_copy_nonneg (rng : ℕ → ℚ) (events : List TradeEvent)
    (hws : ∀ e ∈ events, 0 ≤ e.whale_shares) (hr : ∀ n, rng n < 1) :
    (run_backtest cfgFull rng events).trades_executed = events.length
    ∧ (run_backtest cfgFull rng events).trades_skipped = 0 := by
  have hws2 : ∀ e ∈ sortFeed events, 0 ≤ e.whale_shares := fun e he =>
    hws e ((mem_sortFeed events e).1 he)
  obtain ⟨h1, h2⟩ := processFeed_cfgFull_counts rng (sortFeed events) initRun
    hws2 hr
  constructor
  · rw [run_backtest_executed, h1]
    simp [initRun, initState, sortFeed_length]
  · rw [run_backtest_skipped, h2]
    rfl

/-- C7 witness: a one-event feed with nonnegative shares is fully copied
under the full-copy configuration. -/
theorem full_copy_nonneg_witness :
    (run_backtest cfgFull rngZero [ev0]).trades_executed = 1
    ∧ (run_backtest cfgFull rngZero [ev0]).trades_skipped = 0 :=
  full_copy_nonneg rngZero [ev0] (by decide) (fun _ => by norm_num [rngZero])

/-- C8 counterexample: the claim says the tail size `K` is a configurable
option (default 20); the source hard-codes `[-20:]`. On a 25-event feed the
result's log tail has exactly 20 entries under two configurations that
differ in every recognized option. -/
theorem fixed_tail_cex :
    (run_backtest cfg0 rngZero feed25).execution_log.length = 20
    ∧ (run_backtest cfgAlt rngZero feed25).execution_log.length = 20 := by
  constructor
  · have hlen : (processFeed cfg0 rngZero initRun (sortFeed feed25)).log.length
        = 25 := by
      rw [processFeed_log_length, sortFeed_length, feed25,
        List.length_replicate]
      rfl
    rw [run_backtest_log, List.length_drop, hlen]
  · have hlen : (processFeed cfgAlt rngZero initRun
        (sortFeed feed25)).log.length = 25 := by
      rw [processFeed_log_length, sortFeed_length, feed25,
        List.length_replicate]
      rfl
    rw [run_backtest_log, List.length_drop, hlen]

/-- C8 amended: for a feed with strictly ascending (hence distinct)
timestamps — where every sorted permutation of the feed is the feed
itself, so the conclusion does not depend on which sorted permutation the
source's unstable `sort_values` returns (`sorted_perm_of_strict_eq`) —
the execution log has exactly one entry per input event in input order
(equal event-determined fields, no reordering, loss, or duplication), and
the result's execution-log tail is the last 20 entries of the log — 20
being hard-coded, not configurable.  For feeds with tied timestamps the
source guarantees no particular order among the tied events. -/
theorem execution_log_order_fixed_tail (cfg : Config) (rng : ℕ → ℚ)
    (events : List TradeEvent)
    (hs : events.Pairwise (fun a b => a.timestamp_ms < b.timestamp_ms)) :
    (processFeed cfg rng initRun events).log.map logShape
        = events.map evShape
    ∧ (run_backtest cfg rng events).execution_log
        = (processFeed cfg rng initRun events).log.drop
            ((processFeed cfg rng initRun events).log.length - 20) := by
  have hle : events.Pairwise (fun a b => a.timestamp_ms ≤ b.timestamp_ms) :=
    hs.imp (fun h => le_of_lt h)
  constructor
  · rw [processFeed_log_shape]
    simp [initRun]
  · rw [run_backtest_log, sortFeed_of_sorted events hle]

/-- C8 witness: on a two-event feed with strictly ascending timestamps
the log lines up one-to-one with the input events in order. -/
theorem execution_log_order_fixed_tail_witness :
    (processFeed cfg0 rngZero initRun [ev0, ev1]).log.map logShape
      = [ev0, ev1].map evShape :=
  (execution_log_order_fixed_tail cfg0 rngZero [ev0, ev1] (by decide)).1

end Backtest
